import Mathlib

/-!
Shallow embedding of the scheduling-relevant code of the
conflux-microservices repository, together with proofs about it.

Part 1 embeds the pure helper functions of
`packages/shared/utils/index.ts` (`addMinutes`, `addDays`,
`isBusinessHours`, `generateTimeSlots`).  JavaScript strings are
embedded as `String` at the interface and manipulated as `List Char`
(identical to UTF-16 comparison semantics on the ASCII data involved);
JavaScript numbers at the integer values the code uses are embedded as
`Int`; `Date` values are embedded as their millisecond epoch value
(`Date.getTime()`), which is what the code reads and writes.

Part 2 models the Appointment Scheduling and Availability Engine
(booking, cancellation, reschedule) described by the design document;
that component has no implementation under the repository sources, so
it is modelled from the specification text, as marked on each
definition.
-/

namespace Conflux

/-- Splits a character list at every colon, as `String.prototype.split(":")`
does on the corresponding JavaScript string. -/
def splitOnColon : List Char → List (List Char)
  | [] => [[]]
  | c :: cs =>
    if c = ':' then [] :: splitOnColon cs
    else
      match splitOnColon cs with
      | [] => [[c]]
      | p :: ps => (c :: p) :: ps

/-- Value of a decimal digit character, `none` on any other character. -/
def digit? (c : Char) : Option Nat :=
  if '0' ≤ c ∧ c ≤ '9' then some (c.toNat - 48) else none

/-- Decimal reading of a character list, `none` when the list is empty or
holds a non-digit; embeds the effect of `Number` on the well-formed
`HH` / `MM` components the code feeds it. -/
def toNatChars (cs : List Char) : Option Nat :=
  match cs with
  | [] => none
  | _ => cs.foldl (fun acc c => do
      let a ← acc
      let d ← digit? c
      pure (a * 10 + d)) (some 0)

/-- Lexicographic order on character lists: the comparison JavaScript
performs for `<=` / `>=` between strings (code-unit order, which agrees
with code-point order on the ASCII `HH:MM` data involved). -/
def chLe (a b : List Char) : Bool :=
  match a, b with
  | [], _ => true
  | _ :: _, [] => false
  | x :: xs, y :: ys => if x = y then chLe xs ys else decide (x < y)

/-- Reading of a `"HH:MM"` time string as minutes after midnight:
the `split(':').map(Number)` + `startHour * 60 + startMin` computation of
`generateTimeSlots`.  `none` embeds the NaN-poisoned runs on strings the
code never receives. -/
def parseTime (s : String) : Option Int :=
  match (splitOnColon s.data).map toNatChars with
  | some h :: some m :: _ => some ((h : Int) * 60 + (m : Int))
  | _ => none

/-- Left padding with the character 0 up to width two:
`String.prototype.padStart(2, '0')`. -/
def pad2 (s : List Char) : List Char :=
  List.replicate (2 - s.length) '0' ++ s

/-- Rendering of a minute count as `"HH:MM"`: the template literal of
`generateTimeSlots` (`Math.floor(current / 60)` and `current % 60`, both
zero padded).  All rendered cursors are nonnegative, where `Int.ediv` and
`Int.emod` agree with the JavaScript operations. -/
def fmtTime (m : Int) : List Char :=
  pad2 (toString (m.ediv 60)).data ++ ':' :: pad2 (toString (m.emod 60)).data

/-- Fuel-indexed form of the `while (current + slotDuration <= end)` loop
of `generateTimeSlots`, emitting the cursor values; `none` means the fuel
ran out with the loop condition still true, which, at the canonical fuel
used below, embeds a non-terminating run. -/
def genLoop : Nat → Int → Int → Int → Option (List Int)
  | 0, current, stop, slotDuration =>
    if current + slotDuration ≤ stop then none else some []
  | fuel + 1, current, stop, slotDuration =>
    if current + slotDuration ≤ stop then
      (genLoop fuel (current + slotDuration) stop slotDuration).map
        (fun rest => current :: rest)
    else some []

/-- The slot-start minutes computed by `generateTimeSlots` before string
rendering: parse both bounds, then run the emission loop with
`slotDuration = duration + bufferTime`. -/
def generateSlotMinutes (startTime endTime : String)
    (duration bufferTime : Int) : Option (List Int) :=
  match parseTime startTime, parseTime endTime with
  | some current, some stop =>
    let slotDuration := duration + bufferTime
    genLoop ((stop - current).toNat + 1) current stop slotDuration
  | _, _ => none

/-- Embedding of `generateTimeSlots` from
`packages/shared/utils/index.ts` lines 29-51: slot-start minutes rendered
as `"HH:MM"` strings. -/
def generateTimeSlots (startTime endTime : String)
    (duration bufferTime : Int) : Option (List String) :=
  (generateSlotMinutes startTime endTime duration bufferTime).map
    (fun l => l.map (fun m => String.mk (fmtTime m)))

/-- Embedding of `addMinutes` (utils lines 9-11): a `Date` is its
millisecond epoch value. -/
def addMinutes (date : Int) (minutes : Int) : Int :=
  date + minutes * 60 * 1000

/-- Embedding of `addDays` (utils lines 13-15). -/
def addDays (date : Int) (days : Int) : Int :=
  date + days * 24 * 60 * 60 * 1000

/-- One `{start, end}` entry of a working-hours day list, both bounds as
`"HH:MM"` strings (`end` is embedded as `stop`). -/
structure HoursSlot where
  start : String
  stop : String
deriving DecidableEq

/-- Embedding of `isBusinessHours` (utils lines 17-27).  The function
reads only the weekday name and the `"HH:MM"` rendering of its `Date`
argument, so the embedding takes those two projections directly; the
`workingHours` record is a partial map from weekday names, `none`
embedding an absent (or non-array) entry. -/
def isBusinessHours (day : String) (time : String)
    (workingHours : String → Option (List HoursSlot)) : Bool :=
  match workingHours day with
  | none => false
  | some dayHours =>
    if dayHours.length = 0 then false
    else dayHours.any (fun slot =>
      chLe slot.start.data time.data && chLe time.data slot.stop.data)

/-!
Part 2: the Appointment Scheduling and Availability Engine.  The design
document specifies a BookingTransactionManager with operations
`attemptBook`, `cancel` and `reschedule`; the repository sources contain
no implementation of it (only the documented database schema), so the
model below is built from the specification text.  The per-staff
serialization scope makes each check-then-commit sequence atomic, so the
operations are modelled as atomic functions on the appointment store; a
concurrent execution of two calls is then an execution of the two calls
in one of the two sequential orders.
-/

/-- Appointment status, from the data model (Scheduled, Cancelled,
Completed, NoShow). -/
inductive AppointmentStatus where
  | scheduled
  | cancelled
  | completed
  | noShow
deriving DecidableEq

/-- Modelled from the spec: an Appointment row.  Times are minutes on an
absolute scale; `duration` and `buffer` are the service parameters the
appointment was booked with, so its occupied interval is
`[start, start + duration + buffer)`. -/
structure Appointment where
  id : Nat
  staffId : Nat
  customerId : Nat
  start : Int
  duration : Int
  buffer : Int
  status : AppointmentStatus
deriving DecidableEq

/-- End of the appointment proper: start + service duration. -/
def Appointment.stop (a : Appointment) : Int :=
  a.start + a.duration

/-- End of the interval the appointment occupies, including its trailing
buffer. -/
def Appointment.extStop (a : Appointment) : Int :=
  a.stop + a.buffer

/-- Two appointments overlap when their buffer-extended half-open
intervals `[start, stop + buffer)` share an instant. -/
def Overlaps (a b : Appointment) : Prop :=
  a.start < b.extStop ∧ b.start < a.extStop

instance (a b : Appointment) : Decidable (Overlaps a b) :=
  inferInstanceAs (Decidable (And _ _))

/-- Modelled from the spec: a booking request naming staff, customer,
requested start time and the service parameters (duration, buffer,
maximum advance-booking horizon in days). -/
structure BookRequest where
  staffId : Nat
  customerId : Nat
  start : Int
  duration : Int
  buffer : Int
  maxAdvanceDays : Int
deriving DecidableEq

/-- Modelled from the spec: the read-only collaborators of the booking
transaction: the WorkingHoursRegistry view for the relevant dates (open
intervals per staff member, in absolute minutes) and the injected clock. -/
structure BookingEnv where
  registry : Nat → List (Int × Int)
  now : Int

/-- Errors of the engine: ConflictError reasons, NotFoundError and
InvalidStateError, from the error-handling design. -/
inductive EngineError where
  | slotTaken
  | outsideWorkingHours
  | tooFarInAdvance
  | notFoundError
  | invalidStateError
deriving DecidableEq

/-- Fresh appointment identifier: one past the largest identifier in the
store. -/
def freshId (st : List Appointment) : Nat :=
  (st.map (fun a => a.id)).foldr max 0 + 1

/-- Modelled from the spec: the candidate start time lies within some
open interval of the WorkingHoursRegistry, after buffer accounting. -/
def withinWorkingHours (env : BookingEnv) (req : BookRequest) : Bool :=
  (env.registry req.staffId).any (fun iv =>
    decide (iv.1 ≤ req.start) && decide (req.start + req.duration + req.buffer ≤ iv.2))

/-- Modelled from the spec: the candidate Scheduled appointment a booking
request would commit, carrying a fresh identifier. -/
def candidateOf (st : List Appointment) (req : BookRequest) : Appointment :=
  { id := freshId st, staffId := req.staffId, customerId := req.customerId,
    start := req.start, duration := req.duration, buffer := req.buffer,
    status := AppointmentStatus.scheduled }

/-- Modelled from the spec: the overlap check of step 3 of the booking
transaction: some Scheduled appointment of the same staff member has a
buffer-extended interval intersecting the candidate interval. -/
def hasConflict (st : List Appointment) (cand : Appointment) : Bool :=
  st.any (fun a =>
    decide (a.staffId = cand.staffId) &&
    decide (a.status = AppointmentStatus.scheduled) &&
    decide (Overlaps cand a))

/-- Modelled from the spec: `attemptBook` of the
BookingTransactionManager.  The check-then-commit sequence is atomic
under the per-staff serialization scope, so it is one function from
store to store: reject with SlotTaken on an overlap with another
Scheduled appointment of the staff member, then with OutsideWorkingHours,
then with TooFarInAdvance; otherwise insert the Scheduled appointment.
Every rejection leaves the store unchanged. -/
def attemptBook (env : BookingEnv) (st : List Appointment)
    (req : BookRequest) : Except EngineError Appointment × List Appointment :=
  let cand : Appointment := candidateOf st req
  if hasConflict st cand then
    (Except.error EngineError.slotTaken, st)
  else if ¬ withinWorkingHours env req then
    (Except.error EngineError.outsideWorkingHours, st)
  else if env.now + req.maxAdvanceDays * 1440 < req.start then
    (Except.error EngineError.tooFarInAdvance, st)
  else
    (Except.ok cand, cand :: st)

/-- Modelled from the spec: `cancel` sets status Cancelled when the
appointment is currently Scheduled, fails with InvalidStateError when it
is in any other status and with NotFoundError when it is unknown. -/
def cancel (st : List Appointment) (apId : Nat) :
    Except EngineError Unit × List Appointment :=
  match st.find? (fun a => a.id = apId) with
  | none => (Except.error EngineError.notFoundError, st)
  | some a =>
    if a.status = AppointmentStatus.scheduled then
      (Except.ok (),
       st.map (fun b =>
         if b.id = apId then { b with status := AppointmentStatus.cancelled } else b))
    else (Except.error EngineError.invalidStateError, st)

/-- Modelled from the spec: `reschedule` is the atomic pair: cancel the
existing appointment and attempt to book the new time in the same
serialization scope; when the new booking fails, the cancellation is
rolled back, so the store reverts to its state before the call. -/
def reschedule (env : BookingEnv) (st : List Appointment) (apId : Nat)
    (newStart : Int) (maxAdvanceDays : Int) :
    Except EngineError Appointment × List Appointment :=
  match st.find? (fun a => a.id = apId) with
  | none => (Except.error EngineError.notFoundError, st)
  | some orig =>
    match cancel st apId with
    | (Except.error e, _) => (Except.error e, st)
    | (Except.ok _, st1) =>
      match attemptBook env st1
          { staffId := orig.staffId, customerId := orig.customerId,
            start := newStart, duration := orig.duration,
            buffer := orig.buffer, maxAdvanceDays := maxAdvanceDays } with
      | (Except.error e, _) => (Except.error e, st)
      | (Except.ok a, st2) => (Except.ok a, st2)

/-- The invariant of the store: no two distinct Scheduled appointments of
one staff member have overlapping buffer-extended intervals. -/
def NoOverlapInv (st : List Appointment) : Prop :=
  ∀ a ∈ st, ∀ b ∈ st, a.id ≠ b.id → a.staffId = b.staffId →
    a.status = AppointmentStatus.scheduled →
    b.status = AppointmentStatus.scheduled → ¬ Overlaps a b

/-- The emission condition stated by the specification text for a cursor
position `t`: reachable from the open time by steps of
`duration + buffer`, and `t + duration` does not exceed the interval
end.  Written from the words of the specification, for comparison with
the code. -/
def specEmitCondition (openM stopM duration buffer t : Int) : Prop :=
  (∃ k : Nat, t = openM + k * (duration + buffer)) ∧ t + duration ≤ stopM

/-- The emission condition the code actually enforces: reachable from
the open time by steps of `duration + buffer`, and
`t + duration + buffer` does not exceed the interval end. -/
def codeEmitCondition (openM stopM duration buffer t : Int) : Prop :=
  (∃ k : Nat, t = openM + k * (duration + buffer)) ∧ t + duration + buffer ≤ stopM

theorem chLe_refl (cs : List Char) : chLe cs cs = true := by
  induction cs with
  | nil => rfl
  | cons c cs ih => simp [chLe, ih]

/-- C2: with working hours 09:00 to 12:00, a 30 minute service and a 10
minute buffer, `generateTimeSlots` returns exactly the slots 09:00,
09:40, 10:20 and 11:00, in that order. -/
theorem generateTimeSlots_scenario_A :
    generateTimeSlots "09:00" "12:00" 30 10 =
      some ["09:00", "09:40", "10:20", "11:00"] := by decide

/-- C10: `addDays d n` equals `addMinutes d (n * 1440)`, and `addMinutes`
is additive in its second argument: both functions add fixed-length
spans of absolute milliseconds, so a day is always exactly 24 hours. -/
theorem addDays_eq_addMinutes_and_addMinutes_additive (d n m : Int) :
    addDays d n = addMinutes d (n * 1440) ∧
    addMinutes (addMinutes d n) m = addMinutes d (n + m) := by
  unfold addDays addMinutes
  constructor <;> ring

/-- C7: when the working-hours entry for the queried day is absent or an
empty list, `isBusinessHours` returns false for every queried time. -/
theorem isBusinessHours_closed_day (day time : String)
    (workingHours : String → Option (List HoursSlot))
    (h : workingHours day = none ∨ workingHours day = some []) :
    isBusinessHours day time workingHours = false := by
  rcases h with h | h <;> simp [isBusinessHours, h]

/-- Witness for C7 at a concrete closed day. -/
theorem isBusinessHours_closed_day_witness :
    ((fun (_ : String) => (none : Option (List HoursSlot))) "sunday" = none ∨
      (fun (_ : String) => (none : Option (List HoursSlot))) "sunday" = some []) ∧
    isBusinessHours "sunday" "10:00" (fun _ => none) = false :=
  ⟨Or.inl rfl,
   isBusinessHours_closed_day "sunday" "10:00" (fun _ => none) (Or.inl rfl)⟩

/-- C9: `isBusinessHours` treats each working-hours interval as closed at
both ends: querying the exact end bound of a listed interval (and
likewise the exact start bound) returns true. -/
theorem isBusinessHours_inclusive_bounds (day : String)
    (workingHours : String → Option (List HoursSlot))
    (l : List HoursSlot) (slot : HoursSlot)
    (hw : workingHours day = some l) (hmem : slot ∈ l)
    (hse : chLe slot.start.data slot.stop.data = true) :
    isBusinessHours day slot.stop workingHours = true ∧
    isBusinessHours day slot.start workingHours = true := by
  have hlen : l.length ≠ 0 := by
    cases l with
    | nil => cases hmem
    | cons a as => simp
  constructor <;>
  · simp only [isBusinessHours, hw]
    rw [if_neg hlen]
    refine List.any_eq_true.mpr ⟨slot, hmem, ?_⟩
    simp [chLe_refl, hse]

/-- Witness for C9: with the 09:00 to 12:00 block of Scenario A, the
exact boundary times 12:00 and 09:00 both count as business hours. -/
theorem isBusinessHours_inclusive_bounds_witness :
    isBusinessHours "monday" "12:00"
      (fun d => if d = "monday" then some [⟨"09:00", "12:00"⟩] else none) = true ∧
    isBusinessHours "monday" "09:00"
      (fun d => if d = "monday" then some [⟨"09:00", "12:00"⟩] else none) = true :=
  isBusinessHours_inclusive_bounds "monday"
    (fun d => if d = "monday" then some [⟨"09:00", "12:00"⟩] else none)
    [⟨"09:00", "12:00"⟩] ⟨"09:00", "12:00"⟩ (by decide) (by decide) (by decide)

theorem genLoop_isSome (stop sd : Int) (hsd : 1 ≤ sd) :
    ∀ (fuel : Nat) (current : Int), (stop - current).toNat < fuel →
      (genLoop fuel current stop sd).isSome = true := by
  intro fuel
  induction fuel with
  | zero => intro current h; exact absurd h (Nat.not_lt_zero _)
  | succ f ih =>
    intro current h
    by_cases hc : current + sd ≤ stop
    · have h4 : (stop - (current + sd)).toNat < f := by omega
      rcases Option.isSome_iff_exists.mp (ih (current + sd) h4) with ⟨l, hl⟩
      simp [genLoop, if_pos hc, hl]
    · simp [genLoop, if_neg hc]

theorem genLoop_zero_sd_none (stop : Int) :
    ∀ (fuel : Nat) (current : Int), current ≤ stop →
      genLoop fuel current stop 0 = none := by
  intro fuel
  induction fuel with
  | zero =>
    intro current h
    simp only [genLoop]
    rw [if_pos (by omega : current + 0 ≤ stop)]
  | succ f ih =>
    intro current h
    simp only [genLoop]
    rw [if_pos (by omega : current + 0 ≤ stop), add_zero, ih current h]
    rfl

theorem genLoop_mem (stop sd : Int) (hsd : 0 < sd) :
    ∀ (fuel : Nat) (current : Int) (l : List Int),
      genLoop fuel current stop sd = some l →
      ∀ t : Int, t ∈ l ↔ ∃ k : Nat, t = current + k * sd ∧ t + sd ≤ stop := by
  intro fuel
  induction fuel with
  | zero =>
    intro current l hl t
    by_cases hc : current + sd ≤ stop
    · simp [genLoop, if_pos hc] at hl
    · simp only [genLoop, if_neg hc, Option.some.injEq] at hl
      subst hl
      simp only [List.not_mem_nil, false_iff]
      rintro ⟨k, rfl, hle⟩
      have hk : (0 : Int) ≤ (k : Int) * sd := by positivity
      omega
  | succ f ih =>
    intro current l hl t
    by_cases hc : current + sd ≤ stop
    · simp only [genLoop, if_pos hc] at hl
      rcases Option.map_eq_some'.mp hl with ⟨l', hl', rfl⟩
      have iht := ih (current + sd) l' hl'
      constructor
      · intro ht
        rcases List.mem_cons.mp ht with rfl | ht'
        · exact ⟨0, by push_cast; ring, by omega⟩
        · rcases (iht t).mp ht' with ⟨k, hk, hle⟩
          refine ⟨k + 1, ?_, hle⟩
          rw [hk]; push_cast; ring
      · rintro ⟨k, hk, hle⟩
        cases k with
        | zero =>
          have ht : t = current := by simpa using hk
          exact List.mem_cons.mpr (Or.inl ht)
        | succ j =>
          refine List.mem_cons.mpr (Or.inr ((iht t).mpr ⟨j, ?_, hle⟩))
          rw [hk]; push_cast; ring
    · simp only [genLoop, if_neg hc, Option.some.injEq] at hl
      subst hl
      simp only [List.not_mem_nil, false_iff]
      rintro ⟨k, rfl, hle⟩
      have hk : (0 : Int) ≤ (k : Int) * sd := by positivity
      omega

theorem genLoop_get (stop sd : Int) :
    ∀ (fuel : Nat) (current : Int) (l : List Int),
      genLoop fuel current stop sd = some l →
      ∀ (k : Nat) (hk : k < l.length), l.get ⟨k, hk⟩ = current + k * sd := by
  intro fuel
  induction fuel with
  | zero =>
    intro current l hl k hk
    by_cases hc : current + sd ≤ stop
    · simp [genLoop, if_pos hc] at hl
    · simp only [genLoop, if_neg hc, Option.some.injEq] at hl
      subst hl
      exact absurd hk (by simp)
  | succ f ih =>
    intro current l hl k hk
    by_cases hc : current + sd ≤ stop
    · simp only [genLoop, if_pos hc] at hl
      rcases Option.map_eq_some'.mp hl with ⟨l', hl', rfl⟩
      cases k with
      | zero => simp
      | succ j =>
        have hj : j < l'.length := by simpa using hk
        have hval := ih (current + sd) l' hl' j hj
        simp only [List.get_cons_succ, hval]
        push_cast
        ring
    · simp only [genLoop, if_neg hc, Option.some.injEq] at hl
      subst hl
      exact absurd hk (by simp)

/-- C3 counterexample: the specification text stops the loop at
`cursor + duration > interval.end`, without the buffer.  With working
hours 09:00 to 12:10, a 30 minute service and a 10 minute buffer, the
cursor 700 (11:40) satisfies that condition (700 + 30 = 730, the
interval end), yet the code does not emit it, because its loop condition
also adds the buffer (700 + 30 + 10 > 730). -/
theorem generateSlotMinutes_spec_stop_cex :
    generateSlotMinutes "09:00" "12:10" 30 10 = some [540, 580, 620, 660] ∧
    parseTime "09:00" = some 540 ∧ parseTime "12:10" = some 730 ∧
    specEmitCondition 540 730 30 10 700 ∧
    (700 : Int) ∉ ([540, 580, 620, 660] : List Int) :=
  ⟨by decide, by decide, by decide, ⟨⟨4, by norm_num⟩, by norm_num⟩, by decide⟩

/-- C3 amended: a start time `t` is in the emitted list exactly when `t`
is reachable from the open time by steps of `duration + buffer` and
`t + duration + buffer` (not merely `t + duration`) does not exceed the
interval end. -/
theorem generateSlotMinutes_mem (startTime endTime : String)
    (duration bufferTime openM stopM : Int) (l : List Int)
    (hs : parseTime startTime = some openM)
    (he : parseTime endTime = some stopM)
    (hd : 0 < duration) (hb : 0 ≤ bufferTime)
    (hl : generateSlotMinutes startTime endTime duration bufferTime = some l)
    (t : Int) :
    t ∈ l ↔ codeEmitCondition openM stopM duration bufferTime t := by
  simp only [generateSlotMinutes, hs, he] at hl
  have hsd : 0 < duration + bufferTime := by omega
  have hmem := genLoop_mem stopM (duration + bufferTime) hsd _ openM l hl t
  unfold codeEmitCondition
  rw [hmem]
  constructor
  · rintro ⟨k, hk, hle⟩
    exact ⟨⟨k, hk⟩, by omega⟩
  · rintro ⟨⟨k, hk⟩, hle⟩
    exact ⟨k, hk, by omega⟩

/-- Witness for the amended C3 on Scenario A. -/
theorem generateSlotMinutes_mem_witness :
    ((540 : Int) ∈ ([540, 580, 620, 660] : List Int) ↔
      codeEmitCondition 540 720 30 10 540) :=
  generateSlotMinutes_mem "09:00" "12:00" 30 10 540 720 [540, 580, 620, 660]
    (by decide) (by decide) (by norm_num) (by norm_num) (by decide) 540

/-- C6: the k-th emitted slot starts exactly
`openTime + k * (duration + bufferTime)` minutes after midnight; in
particular the first emitted slot starts at the interval open time and
consecutive slots are exactly `duration + bufferTime` minutes apart. -/
theorem generateSlotMinutes_arithmetic (startTime endTime : String)
    (duration bufferTime openM stopM : Int) (l : List Int)
    (hs : parseTime startTime = some openM)
    (he : parseTime endTime = some stopM)
    (hd : 0 < duration) (hb : 0 ≤ bufferTime)
    (hl : generateSlotMinutes startTime endTime duration bufferTime = some l) :
    ∀ (k : Nat) (hk : k < l.length),
      l.get ⟨k, hk⟩ = openM + k * (duration + bufferTime) := by
  simp only [generateSlotMinutes, hs, he] at hl
  exact genLoop_get stopM (duration + bufferTime) _ openM l hl

/-- Witness for C6 on Scenario A: the slot of index 1 starts at
540 + 1 * 40 = 580 minutes, that is 09:40. -/
theorem generateSlotMinutes_arithmetic_witness :
    ([540, 580, 620, 660] : List Int).get ⟨1, by norm_num⟩ =
      540 + (1 : Nat) * (30 + 10) :=
  generateSlotMinutes_arithmetic "09:00" "12:00" 30 10 540 720
    [540, 580, 620, 660] (by decide) (by decide) (by norm_num) (by norm_num)
    (by decide) 1 (by norm_num)

/-- C8: `generateTimeSlots` terminates whenever
`duration + bufferTime > 0` (the loop result exists at the canonical
fuel, because each iteration strictly increases the cursor), and with
`duration + bufferTime = 0` and an emittable slot the loop never
finishes at any fuel, because the cursor does not advance. -/
theorem generateTimeSlots_termination :
    (∀ (startTime endTime : String) (duration bufferTime : Int),
      (parseTime startTime).isSome = true →
      (parseTime endTime).isSome = true →
      0 < duration + bufferTime →
      (generateTimeSlots startTime endTime duration bufferTime).isSome = true) ∧
    (∀ (fuel : Nat) (current stop : Int), current ≤ stop →
      genLoop fuel current stop 0 = none) := by
  constructor
  · intro s e d b hs he hsd
    rcases Option.isSome_iff_exists.mp hs with ⟨openM, hs'⟩
    rcases Option.isSome_iff_exists.mp he with ⟨stopM, he'⟩
    have hrun := genLoop_isSome stopM (d + b) (by omega)
      ((stopM - openM).toNat + 1) openM (Nat.lt_succ_self _)
    rcases Option.isSome_iff_exists.mp hrun with ⟨l, hl⟩
    simp [generateTimeSlots, generateSlotMinutes, hs', he', hl]
  · intro fuel current stop h
    exact genLoop_zero_sd_none stop fuel current h

/-- Witness for C8: Scenario A terminates with a result, while a
zero-step loop with an emittable slot yields no result at fuel 3. -/
theorem generateTimeSlots_termination_witness :
    (generateTimeSlots "09:00" "12:00" 30 10).isSome = true ∧
    genLoop 3 540 720 0 = none :=
  ⟨generateTimeSlots_termination.1 "09:00" "12:00" 30 10
      (by decide) (by decide) (by norm_num),
   generateTimeSlots_termination.2 3 540 720 (by norm_num)⟩

theorem le_foldr_max (n : Nat) (ns : List Nat) (h : n ∈ ns) :
    n ≤ ns.foldr max 0 := by
  induction ns with
  | nil => cases h
  | cons m ms ih =>
    rcases List.mem_cons.mp h with rfl | h'
    · exact Nat.le_max_left _ _
    · exact le_trans (ih h') (Nat.le_max_right _ _)

theorem mem_id_lt_freshId (st : List Appointment) (a : Appointment)
    (ha : a ∈ st) : a.id < freshId st := by
  have hle : a.id ≤ (st.map (fun x => x.id)).foldr max 0 :=
    le_foldr_max a.id _ (List.mem_map_of_mem _ ha)
  unfold freshId
  omega

theorem Overlaps.symm {a b : Appointment} (h : Overlaps a b) : Overlaps b a :=
  ⟨h.2, h.1⟩

theorem hasConflict_eq_false_iff (st : List Appointment) (cand : Appointment) :
    hasConflict st cand = false ↔
      ∀ a ∈ st, a.staffId = cand.staffId →
        a.status = AppointmentStatus.scheduled → ¬ Overlaps cand a := by
  unfold hasConflict
  rw [← Bool.not_eq_true, List.any_eq_true]
  constructor
  · intro h a ha h1 h2 hov
    exact h ⟨a, ha, by simp [h1, h2, hov]⟩
  · rintro h ⟨a, ha, hcond⟩
    simp only [Bool.and_eq_true, decide_eq_true_eq] at hcond
    exact h a ha hcond.1.1 hcond.1.2 hcond.2

theorem attemptBook_keeps_inv (env : BookingEnv) (st : List Appointment)
    (req : BookRequest) (h : NoOverlapInv st) :
    NoOverlapInv (attemptBook env st req).2 := by
  unfold attemptBook
  by_cases h1 : hasConflict st (candidateOf st req) = true
  · rw [if_pos h1]; exact h
  · rw [if_neg h1]
    by_cases h2 : withinWorkingHours env req = true
    · rw [if_neg (by simp [h2])]
      by_cases h3 : env.now + req.maxAdvanceDays * 1440 < req.start
      · rw [if_pos h3]; exact h
      · rw [if_neg h3]
        have hfree := (hasConflict_eq_false_iff st (candidateOf st req)).mp
          (Bool.not_eq_true _ ▸ h1)
        intro a ha b hb hab hstaff hsa hsb
        rcases List.mem_cons.mp ha with rfl | ha' <;>
          rcases List.mem_cons.mp hb with rfl | hb'
        · exact absurd rfl hab
        · exact hfree b hb' hstaff.symm hsb
        · intro hov
          exact hfree a ha' hstaff hsa hov.symm
        · exact h a ha' b hb' hab hstaff hsa hsb
    · rw [if_pos (by simp [h2])]
      exact h

theorem cancel_keeps_inv (st : List Appointment) (apId : Nat)
    (h : NoOverlapInv st) : NoOverlapInv (cancel st apId).2 := by
  unfold cancel
  split
  · exact h
  · split
    · show NoOverlapInv (List.map (fun b =>
        if b.id = apId then { b with status := AppointmentStatus.cancelled }
        else b) st)
      intro a ha b hb hab hstaff hsa hsb
      rcases List.mem_map.mp ha with ⟨a', ha', rfl⟩
      rcases List.mem_map.mp hb with ⟨b', hb', rfl⟩
      by_cases e1 : a'.id = apId
      · simp [e1] at hsa
      · simp only [if_neg e1] at hab hstaff hsa ⊢
        by_cases e2 : b'.id = apId
        · simp [e2] at hsb
        · simp only [if_neg e2] at hab hstaff hsb ⊢
          exact h a' ha' b' hb' hab hstaff hsa hsb
    · exact h

theorem reschedule_keeps_inv (env : BookingEnv) (st : List Appointment)
    (apId : Nat) (newStart maxAdvanceDays : Int) (h : NoOverlapInv st) :
    NoOverlapInv (reschedule env st apId newStart maxAdvanceDays).2 := by
  unfold reschedule
  split
  · exact h
  · rename_i orig hf
    split
    · exact h
    · rename_i u st1 hc
      have h1 : NoOverlapInv st1 := by
        have hinv := cancel_keeps_inv st apId h
        rw [hc] at hinv
        exact hinv
      split
      · exact h
      · rename_i a st2 hb
        have h2 := attemptBook_keeps_inv env st1
          { staffId := orig.staffId, customerId := orig.customerId,
            start := newStart, duration := orig.duration,
            buffer := orig.buffer, maxAdvanceDays := maxAdvanceDays } h1
        rw [hb] at h2
        exact h2

/-- C1: the no-overlap invariant (no two distinct Scheduled appointments
of one staff member with intersecting buffer-extended intervals) is
preserved by every modelled operation of the engine: booking,
cancellation and reschedule, on their success and on every failure
path. -/
theorem engine_preserves_no_overlap (env : BookingEnv) (st : List Appointment)
    (req : BookRequest) (apId : Nat) (newStart maxAdvanceDays : Int)
    (h : NoOverlapInv st) :
    NoOverlapInv (attemptBook env st req).2 ∧
    NoOverlapInv (cancel st apId).2 ∧
    NoOverlapInv (reschedule env st apId newStart maxAdvanceDays).2 :=
  ⟨attemptBook_keeps_inv env st req h, cancel_keeps_inv st apId h,
   reschedule_keeps_inv env st apId newStart maxAdvanceDays h⟩

/-- Witness for C1 at a concrete store and request. -/
theorem engine_preserves_no_overlap_witness :
    NoOverlapInv ((attemptBook ⟨fun _ => [(540, 720)], 0⟩ []
      ⟨1, 2, 540, 30, 10, 90⟩).2) ∧
    NoOverlapInv ((cancel [] 1).2) ∧
    NoOverlapInv ((reschedule ⟨fun _ => [(540, 720)], 0⟩ [] 1 540 90).2) :=
  engine_preserves_no_overlap ⟨fun _ => [(540, 720)], 0⟩ []
    ⟨1, 2, 540, 30, 10, 90⟩ 1 540 90
    (fun a ha => absurd ha (List.not_mem_nil a))

/-- C4: a `reschedule` call that returns an error, in particular one
whose new booking failed validation for any reason, leaves the store
exactly as it was: the paired cancellation is rolled back, so the
original appointment keeps every field, including its Scheduled
status. -/
theorem reschedule_rollback (env : BookingEnv) (st : List Appointment)
    (apId : Nat) (newStart maxAdvanceDays : Int) (e : EngineError)
    (h : (reschedule env st apId newStart maxAdvanceDays).1 = Except.error e) :
    (reschedule env st apId newStart maxAdvanceDays).2 = st := by
  unfold reschedule at h ⊢
  split
  · rfl
  · rename_i orig hf
    split
    · rfl
    · rename_i u st1 hc
      split
      · rfl
      · rename_i a st2 hb
        rw [hf] at h
        simp [hc, hb] at h

/-- Witness for C4: with one Scheduled appointment and a registry with no
open intervals, the new booking fails and the store is unchanged. -/
theorem reschedule_rollback_witness :
    (reschedule ⟨fun _ => [], 0⟩
      [⟨1, 1, 2, 540, 30, 10, AppointmentStatus.scheduled⟩] 1 600 90).2 =
      [⟨1, 1, 2, 540, 30, 10, AppointmentStatus.scheduled⟩] :=
  reschedule_rollback ⟨fun _ => [], 0⟩
    [⟨1, 1, 2, 540, 30, 10, AppointmentStatus.scheduled⟩] 1 600 90
    EngineError.outsideWorkingHours (by rfl)

/-- C5: when two booking requests race for the same staff member and the
same slot, the serialized execution gives the first committer a
confirmed appointment and the second a SlotTaken conflict; no double
booking occurs. -/
theorem attemptBook_race (env : BookingEnv) (st : List Appointment)
    (reqA reqB : BookRequest)
    (hstaff : reqB.staffId = reqA.staffId) (hstart : reqB.start = reqA.start)
    (hdur : reqB.duration = reqA.duration) (hbuf : reqB.buffer = reqA.buffer)
    (hd : 0 < reqA.duration) (hb : 0 ≤ reqA.buffer)
    (hfree : hasConflict st (candidateOf st reqA) = false)
    (hwh : withinWorkingHours env reqA = true)
    (hhor : reqA.start ≤ env.now + reqA.maxAdvanceDays * 1440) :
    (attemptBook env st reqA).1 = Except.ok (candidateOf st reqA) ∧
    (attemptBook env (attemptBook env st reqA).2 reqB).1 =
      Except.error EngineError.slotTaken := by
  have h1 : attemptBook env st reqA =
      (Except.ok (candidateOf st reqA), candidateOf st reqA :: st) := by
    unfold attemptBook
    rw [if_neg (by simp [hfree]), if_neg (by simp [hwh]),
      if_neg (not_lt.mpr hhor)]
  have hc2 : hasConflict (candidateOf st reqA :: st)
      (candidateOf (candidateOf st reqA :: st) reqB) = true := by
    unfold hasConflict
    apply List.any_eq_true.mpr
    refine ⟨candidateOf st reqA, List.mem_cons_self _ _, ?_⟩
    simp only [candidateOf, Overlaps, Appointment.extStop, Appointment.stop,
      Bool.and_eq_true, decide_eq_true_eq, and_true, true_and]
    exact ⟨hstaff.symm, by omega, by omega⟩
  constructor
  · rw [h1]
  · rw [h1]
    unfold attemptBook
    rw [if_pos hc2]

/-- Witness for C5 on the 09:00 slot of Scenario A with two customers. -/
theorem attemptBook_race_witness :
    (attemptBook ⟨fun _ => [(540, 720)], 0⟩ [] ⟨1, 2, 540, 30, 10, 90⟩).1 =
      Except.ok (candidateOf [] ⟨1, 2, 540, 30, 10, 90⟩) ∧
    (attemptBook ⟨fun _ => [(540, 720)], 0⟩
      (attemptBook ⟨fun _ => [(540, 720)], 0⟩ [] ⟨1, 2, 540, 30, 10, 90⟩).2
      ⟨1, 3, 540, 30, 10, 90⟩).1 = Except.error EngineError.slotTaken :=
  attemptBook_race ⟨fun _ => [(540, 720)], 0⟩ [] ⟨1, 2, 540, 30, 10, 90⟩
    ⟨1, 3, 540, 30, 10, 90⟩ rfl rfl rfl rfl (by norm_num) (by norm_num)
    (by rfl) (by rfl) (by norm_num)

end Conflux
